import Mathlib

/-!
Shallow embedding of the CSV reordering core of `src/src/assets/reorder.py`
(classes `SortColumn`, `CSVReorderConfig`, `CSVReorder`).

Modelling conventions:
* CSV rows (Python `dict` produced by `csv.DictReader`) are association
  lists `List (String × String)`; `row.get(name, "")` is `rowGet`.
* A sort-key atom (element of the tuple built by `_create_sort_key`) is a
  Python runtime value: an `int` (the language rank), a `datetime` (only
  year/month/day are ever non-default here) or a `str`.
* Python's comparison of two atoms is `pyCmpKeyPart`: same-type values
  compare by their native order, and comparing a `datetime` against a
  `str` (or either against an `int`) raises `TypeError`, modelled as
  `Except.error ()`.  Tuples compare lexicographically (`pyCmpKey`).
* `keyPartLT`/`keyLE` are a total extension of that partial comparison
  (cross-type pairs are ordered by an arbitrary fixed rank).  On every
  pair of keys on which `pyCmpKey` succeeds, `keyLE` agrees with the
  Python comparison (`pyCmpKeyPart_ok_iff` below); theorems about runs
  that the Python program completes carry a `KeysComparable` hypothesis
  stating that every comparison the sort could perform succeeds, so the
  total extension is never observed.
* Python `str.strip`/`str.lower` are modelled by `pyStrip` (ASCII
  whitespace) and `pyLower` (ASCII `Char.toLower`); Python string `<` is
  code-point lexicographic, which is `String.lt`.
-/

/-- The (year, month, day) part of a Python `datetime`; `strptime` with the
formats used here leaves hour/minute/second/microsecond at zero, so the
date triple determines the comparison order. -/
structure PyDate where
  year : Nat
  month : Nat
  day : Nat
  deriving DecidableEq, Repr

/-- A sort-key atom as produced by `CSVReorder._create_sort_key`:
an `int` language rank, a parsed `datetime`, or a string. -/
inductive KeyPart where
  | intPart (n : Nat)
  | datePart (d : PyDate)
  | strPart (s : String)
  deriving DecidableEq, Repr

/-- A composite sort key: the tuple returned by `_create_sort_key`. -/
abbrev Key := List KeyPart

/-- Python `datetime` strict comparison restricted to dates. -/
def dateLT (a b : PyDate) : Bool :=
  decide (a.year < b.year) ||
    (decide (a.year = b.year) &&
      (decide (a.month < b.month) ||
        (decide (a.month = b.month) && decide (a.day < b.day))))

/-- Python `str` comparison: lexicographic over the code points.
(Defined directly, rather than through a library order on `String`, so
that it is executable by kernel reduction and transparently the
code-point order Python uses.) -/
def charListLT : List Char → List Char → Bool
  | [], [] => false
  | [], _ :: _ => true
  | _ :: _, [] => false
  | a :: as, b :: bs =>
    if a.toNat < b.toNat then true
    else if b.toNat < a.toNat then false
    else charListLT as bs

/-- Strict order on atoms: Python's native `<` on same-type atoms
(`int` by value, `datetime` chronologically, `str` by code points), and
an arbitrary fixed rank (`int` before `datetime` before `str`) on
cross-type pairs, where Python itself would raise.  This total
extension is what the sort is modelled with; theorems carry a
hypothesis ruling the cross-type cases out. -/
def keyPartLT : KeyPart → KeyPart → Bool
  | .intPart x, .intPart y => decide (x < y)
  | .intPart _, .datePart _ => true
  | .intPart _, .strPart _ => true
  | .datePart _, .intPart _ => false
  | .datePart x, .datePart y => dateLT x y
  | .datePart _, .strPart _ => true
  | .strPart _, .intPart _ => false
  | .strPart _, .datePart _ => false
  | .strPart x, .strPart y => charListLT x.data y.data

/-- Python's comparison of two same-type atoms, as an `Except`:
same-type atoms compare by the native order (`keyPartLT` restricted to
equal constructors), and `.error ()` is the `TypeError` raised when a
`datetime` meets a `str` (or either meets an `int`) inside a sort-key
tuple. -/
def pyCmpKeyPart (a b : KeyPart) : Except Unit Ordering :=
  match a, b with
  | .intPart _, .intPart _ | .datePart _, .datePart _ | .strPart _, .strPart _ =>
      .ok (if keyPartLT a b then .lt else if keyPartLT b a then .gt else .eq)
  | _, _ => .error ()

/-- Python tuple comparison: lexicographic over the atoms, propagating a
`TypeError` from the first unequal, incomparable position. -/
def pyCmpKey : Key → Key → Except Unit Ordering
  | [], [] => .ok .eq
  | [], _ :: _ => .ok .lt
  | _ :: _, [] => .ok .gt
  | a :: as, b :: bs =>
    match pyCmpKeyPart a b with
    | .error e => .error e
    | .ok .lt => .ok .lt
    | .ok .gt => .ok .gt
    | .ok .eq => pyCmpKey as bs

/-- `true` iff the comparison did not raise. -/
def cmpOk : Except Unit Ordering → Bool
  | .ok _ => true
  | .error _ => false

/-- Non-strict lexicographic order on composite keys. -/
def keyLE : Key → Key → Bool
  | [], _ => true
  | _ :: _, [] => false
  | a :: as, b :: bs =>
    if keyPartLT a b then true
    else if keyPartLT b a then false
    else keyLE as bs

/-!
Date parsing (`CSVReorder.parse_date` and `DATE_FORMATS`).

`datetime.strptime` compiles each format into a regex
(`%Y` ↦ `\d\d\d\d`, `%m` ↦ `1[0-2]|0[1-9]|[1-9]`,
`%d` ↦ `3[01]|[12]\d|0[1-9]|[1-9]`, literals match themselves), requires
the regex to consume the whole (trimmed) input, fills unmatched fields
with the defaults year 1900 / month 1 / day 1, and then constructs a
`datetime`, which additionally checks the day against the length of the
month (raising `ValueError`, caught by `parse_date`, which then tries the
next format).  The matcher below implements exactly those regexes with
backtracking in alternation order.
-/

/-- Python `str.strip` (ASCII whitespace): drop leading and trailing
whitespace characters. -/
def pyStrip (s : String) : String :=
  ⟨((s.data.dropWhile Char.isWhitespace).reverse.dropWhile Char.isWhitespace).reverse⟩

/-- One directive of a `strptime` format string. -/
inductive FmtTok where
  | yr
  | mon
  | day
  | lit (c : Char)
  deriving DecidableEq, Repr

/-- The ten formats of `CSVReorder.DATE_FORMATS`, in order. -/
def DATE_FORMATS : List (List FmtTok) :=
  [ [.yr, .lit '-', .mon, .lit '-', .day],
    [.yr, .lit '/', .mon, .lit '/', .day],
    [.day, .lit '-', .mon, .lit '-', .yr],
    [.day, .lit '/', .mon, .lit '/', .yr],
    [.yr],
    [.yr, .lit '-', .mon],
    [.mon, .lit '-', .yr],
    [.mon, .lit '/', .day, .lit '/', .yr],
    [.day, .lit '.', .mon, .lit '.', .yr],
    [.yr, .lit '.', .mon, .lit '.', .day] ]

/-- Numeric value of a decimal digit character. -/
def digitVal (c : Char) : Nat := c.toNat - 48

/-- Candidate matches of the `%m` regex `1[0-2]|0[1-9]|[1-9]` at the head
of the input, in alternation (backtracking) order.  The two-character
alternatives `1[0-2]` and `0[1-9]` are mutually exclusive (their first
characters differ), so the candidates are: at most one two-character
match, then at most one one-character match. -/
def monthCands (cs : List Char) : Option (Nat × List Char) × Option (Nat × List Char) :=
  match cs with
  | c1 :: c2 :: rest =>
    ( if c1 = '1' ∧ '0' ≤ c2 ∧ c2 ≤ '2' then some (10 + digitVal c2, rest)
      else if c1 = '0' ∧ '1' ≤ c2 ∧ c2 ≤ '9' then some (digitVal c2, rest)
      else none
    , if '1' ≤ c1 ∧ c1 ≤ '9' then some (digitVal c1, c2 :: rest) else none )
  | [c1] => (none, if '1' ≤ c1 ∧ c1 ≤ '9' then some (digitVal c1, []) else none)
  | [] => (none, none)

/-- Candidate matches of the `%d` regex `3[01]|[12]\d|0[1-9]|[1-9]` at the
head of the input, in alternation (backtracking) order.  The
two-character alternatives `3[01]`, `[12]\d` and `0[1-9]` are mutually
exclusive (their first characters differ), so the candidates are: at
most one two-character match, then at most one one-character match. -/
def dayCands (cs : List Char) : Option (Nat × List Char) × Option (Nat × List Char) :=
  match cs with
  | c1 :: c2 :: rest =>
    ( if c1 = '3' ∧ (c2 = '0' ∨ c2 = '1') then some (30 + digitVal c2, rest)
      else if ('1' ≤ c1 ∧ c1 ≤ '2') ∧ c2.isDigit then some (10 * digitVal c1 + digitVal c2, rest)
      else if c1 = '0' ∧ '1' ≤ c2 ∧ c2 ≤ '9' then some (digitVal c2, rest)
      else none
    , if '1' ≤ c1 ∧ c1 ≤ '9' then some (digitVal c1, c2 :: rest) else none )
  | [c1] => (none, if '1' ≤ c1 ∧ c1 ≤ '9' then some (digitVal c1, []) else none)
  | [] => (none, none)

/-- Backtracking matcher for one format: matches the whole input and
returns `(year, month, day)` with `strptime`'s defaults for absent
fields.  For a `%m`/`%d` directive the two-character candidate is tried
first, then the one-character candidate, in the regexes' alternation
order. -/
def matchFmt (ts : List FmtTok) (cs : List Char) (y? m? d? : Option Nat) :
    Option (Nat × Nat × Nat) :=
  match ts, cs with
  | [], [] => some (y?.getD 1900, m?.getD 1, d?.getD 1)
  | [], _ :: _ => none
  | .lit c :: ts', c' :: cs' =>
    if c = c' then matchFmt ts' cs' y? m? d? else none
  | .lit _ :: _, [] => none
  | .yr :: ts', c1 :: c2 :: c3 :: c4 :: rest =>
    if c1.isDigit ∧ c2.isDigit ∧ c3.isDigit ∧ c4.isDigit then
      matchFmt ts' rest
        (some (1000 * digitVal c1 + 100 * digitVal c2 + 10 * digitVal c3 + digitVal c4))
        m? d?
    else none
  | .yr :: _, _ => none
  | .mon :: ts', cs =>
    (match monthCands cs with
     | (some (v, rest), one) =>
       (match matchFmt ts' rest y? (some v) d? with
        | some r => some r
        | none =>
          match one with
          | some (w, rest2) => matchFmt ts' rest2 y? (some w) d?
          | none => none)
     | (none, some (w, rest2)) => matchFmt ts' rest2 y? (some w) d?
     | (none, none) => none)
  | .day :: ts', cs =>
    (match dayCands cs with
     | (some (v, rest), one) =>
       (match matchFmt ts' rest y? m? (some v) with
        | some r => some r
        | none =>
          match one with
          | some (w, rest2) => matchFmt ts' rest2 y? m? (some w)
          | none => none)
     | (none, some (w, rest2)) => matchFmt ts' rest2 y? m? (some w)
     | (none, none) => none)

/-- Gregorian leap year, as `datetime` uses. -/
def isLeapYear (y : Nat) : Bool :=
  decide (y % 4 = 0) && (decide (y % 100 ≠ 0) || decide (y % 400 = 0))

/-- Number of days in a month, as `datetime` uses. -/
def daysInMonth (y m : Nat) : Nat :=
  if m = 2 then (if isLeapYear y then 29 else 28)
  else if m = 4 ∨ m = 6 ∨ m = 9 ∨ m = 11 then 30 else 31

/-- The `datetime(year, month, day)` constructor's range checks. -/
def validDate (y m d : Nat) : Bool :=
  decide (1 ≤ y) && decide (y ≤ 9999) && decide (1 ≤ m) && decide (m ≤ 12) &&
    decide (1 ≤ d) && decide (d ≤ daysInMonth y m)

/-- Try candidates of a list in order, returning the first success. -/
def firstSome : List β → (β → Option γ) → Option γ
  | [], _ => none
  | x :: xs, f =>
    match f x with
    | some y => some y
    | none => firstSome xs f

/-- `datetime.strptime(s, fmt)` followed by the constructor's validity
check: `none` models the `ValueError` that `parse_date` catches. -/
def tryParseFormat (fmt : List FmtTok) (s : List Char) : Option PyDate :=
  match matchFmt fmt s none none none with
  | some (y, m, d) => if validDate y m d then some ⟨y, m, d⟩ else none
  | none => none

/-- The format loop of `parse_date`: first format that parses wins. -/
def parseDateFormats (s : String) : Option PyDate :=
  firstSome DATE_FORMATS fun fmt => tryParseFormat fmt s.data

/-- Result of `parse_date`: a `datetime` or the (stripped) original
string. -/
inductive DateOrStr where
  | date (d : PyDate)
  | str (s : String)
  deriving DecidableEq, Repr

/-- `CSVReorder.parse_date`: blank input is returned unchanged; otherwise
the stripped input is run through the formats, falling back to the
stripped string (with a warning log, which has no effect on the result). -/
def parse_date (ds : String) : DateOrStr :=
  if pyStrip ds = "" then .str ds
  else
    match parseDateFormats (pyStrip ds) with
    | some d => .date d
    | none => .str (pyStrip ds)

/-!
Sort specification (`SortColumn`, `CSVReorderConfig`) and the reorder
pipeline (`CSVReorder`).  The Python field `output_prefix` is rendered
here as `outputPrefix`.  Construction-time validation (`__post_init__`
and `CSVReorder._validate_config`) is modelled by the `mk…` functions
below, which are the only way the program obtains these objects; the
structures themselves are the already-validated data.
-/

/-- `SortColumn` dataclass: a column to sort by. -/
structure SortColumn where
  name : String
  is_date : Bool := false
  deriving DecidableEq, Repr

/-- `CSVReorderConfig` dataclass, with the source's defaults. -/
structure CSVReorderConfig where
  sort_columns : List SortColumn
  reverse : Bool := false
  use_language_sorting : Bool := false
  language_column : String := "language"
  language_order : List String := ["EN", "CN"]
  outputPrefix : String := "sorted_"
  encoding : String := "utf-8"
  deriving DecidableEq, Repr

/-- A configuration error raised at construction time (`ValueError` in
`__post_init__`, or `CSVReorderError` from `_validate_config`). -/
inductive ConfigError where
  | emptyColumnName
  | noSortColumns
  | emptyLanguageColumn
  | emptyLanguageOrder
  | invalidEncoding (enc : String)
  deriving DecidableEq, Repr

/-- `SortColumn.__post_init__`: rejects a blank name, stores the
stripped name. -/
def mkSortColumn (name : String) (isDate : Bool) : Except ConfigError SortColumn :=
  if pyStrip name = "" then .error .emptyColumnName
  else .ok { name := pyStrip name, is_date := isDate }

/-- `CSVReorderConfig.__post_init__`: rejects an empty sort-column list,
and, when language sorting is enabled, a blank language column or an
empty language order. -/
def mkCSVReorderConfig (cols : List SortColumn) (rev uls : Bool)
    (langCol : String) (langOrder : List String) (outPre enc : String) :
    Except ConfigError CSVReorderConfig :=
  if cols.isEmpty then .error .noSortColumns
  else if uls && (pyStrip langCol = "") then .error .emptyLanguageColumn
  else if uls && langOrder.isEmpty then .error .emptyLanguageOrder
  else .ok { sort_columns := cols, reverse := rev, use_language_sorting := uls,
             language_column := langCol, language_order := langOrder,
             outputPrefix := outPre, encoding := enc }

/-- `CSVReorder.__init__` / `_validate_config`: the per-column
`isinstance` check is a tautology in the typed embedding; the encoding
check consults the host's codec registry, modelled as the oracle
`encodingSupported`.  On success the constructed reorderer is just the
validated configuration. -/
def mkCSVReorder (encodingSupported : String → Bool) (cfg : CSVReorderConfig) :
    Except ConfigError CSVReorderConfig :=
  if encodingSupported cfg.encoding then .ok cfg
  else .error (.invalidEncoding cfg.encoding)

/-- A CSV data row: `csv.DictReader`'s dict as an association list. -/
abbrev Row := List (String × String)

/-- `row.get(name, "")`. -/
def rowGet (row : Row) (name : String) : String :=
  match row.find? (fun p => p.1 == name) with
  | some p => p.2
  | none => ""

/-- Python `str.lower`, restricted to ASCII case mapping. -/
def pyLower (s : String) : String := ⟨s.data.map Char.toLower⟩

/-- Python `list.index`: position of the first occurrence, `none` for
the `ValueError` case. -/
def listIndex (v : String) : List String → Option Nat
  | [] => none
  | x :: xs => if x == v then some 0 else (listIndex v xs).map (· + 1)

/-- The language rank of a row (`_create_sort_key`, language block):
index of the stripped value in `language_order`, or the length of
`language_order` when absent (the caught `ValueError` branch). -/
def langIndex (cfg : CSVReorderConfig) (row : Row) : Nat :=
  match listIndex (pyStrip (rowGet row cfg.language_column)) cfg.language_order with
  | some i => i
  | none => cfg.language_order.length

/-- `CSVReorder._create_sort_key`: the language rank (when enabled)
followed by one atom per sort column — a parse-or-fallback value for a
non-empty `is_date` column, otherwise the lowercased string. -/
def createSortKey (cfg : CSVReorderConfig) (row : Row) : Key :=
  (if cfg.use_language_sorting then [KeyPart.intPart (langIndex cfg row)] else []) ++
  cfg.sort_columns.map fun sc =>
    let value := rowGet row sc.name
    if sc.is_date && !(value == "") then
      match parse_date value with
      | .date d => .datePart d
      | .str s => .strPart s
    else
      .strPart (pyLower value)

/-- Run-time errors of the pipeline (`CSVReorderError` cases relevant to
the in-memory model). -/
inductive ReorderError where
  | noColumns
  | noHeaderRow
  | noDataRows
  | missingSortColumns (missing : Finset String)
  | missingLanguageColumn (name : String)
  deriving DecidableEq

/-- The set of configured sort-column names
(`{col.name for col in self.config.sort_columns}`). -/
def sortColumnNames (cfg : CSVReorderConfig) : Finset String :=
  (cfg.sort_columns.map fun c => c.name).toFinset

/-- `CSVReorder._validate_csv_columns`: rejects an empty header, then
reports the full set of missing sort columns in one pass, then checks
the language column when language sorting is enabled. -/
def validateCsvColumns (cfg : CSVReorderConfig) (fieldnames : List String) :
    Except ReorderError Unit :=
  if fieldnames.isEmpty then .error .noColumns
  else
    let missing := sortColumnNames cfg \ fieldnames.toFinset
    if missing = ∅ then
      if cfg.use_language_sorting && !(fieldnames.contains cfg.language_column) then
        .error (.missingLanguageColumn cfg.language_column)
      else .ok ()
    else .error (.missingSortColumns missing)

/-- What `_read_csv_file` hands to the pipeline: the parsed header, the
data rows in file order, and the delimiter the `csv.Sniffer` detected. -/
structure ReadResult where
  fieldnames : List String
  rows : List Row
  delimiter : String
  deriving DecidableEq

/-- The file `_write_csv_file` produces, as observable data: its path,
serialized column order, field delimiter, text encoding, and row order.
`csv.DictWriter` is constructed without a `delimiter` argument, so it
serializes with the default `,` regardless of what was detected on
input. -/
structure OutputFile where
  path : String
  fieldnames : List String
  delimiter : String
  encoding : String
  rows : List Row
  deriving DecidableEq

/-- CPython's `sorted(data, key=…, reverse=…)`.  `sorted` is a stable
ascending sort, and a stable sort by a total preorder is unique as a
function of its input, so the stable `List.insertionSort` is an exact
model of it.  With `reverse=True`, CPython's `listsort` reverses the
list before and after the ascending sort — which keeps equal-key runs
in their original relative order — modelled the same way here. -/
def pySorted (le : α → α → Bool) (rev : Bool) (l : List α) : List α :=
  if rev then (List.insertionSort (fun a b => le a b = true) l.reverse).reverse
  else List.insertionSort (fun a b => le a b = true) l

/-- Row comparison derived from the composite keys. -/
def rowLE (cfg : CSVReorderConfig) (r1 r2 : Row) : Bool :=
  keyLE (createSortKey cfg r1) (createSortKey cfg r2)

/-- `CSVReorder.reorder_csv` on an already-read file: the no-header
check from `_read_csv_file`, the empty-data check, column validation,
the sort, and the written output file.  Filesystem-only failures (input
missing, I/O errors) are outside the in-memory model. -/
def reorderCsv (cfg : CSVReorderConfig) (inputName outputDir : String)
    (rr : ReadResult) : Except ReorderError OutputFile :=
  if rr.fieldnames.isEmpty then .error .noHeaderRow
  else if rr.rows.isEmpty then .error .noDataRows
  else
    match validateCsvColumns cfg rr.fieldnames with
    | .error e => .error e
    | .ok _ =>
      .ok { path := outputDir ++ "/" ++ cfg.outputPrefix ++ inputName
          , fieldnames := rr.fieldnames
          , delimiter := ","
          , encoding := cfg.encoding
          , rows := pySorted (rowLE cfg) cfg.reverse rr.rows }

/-- `CSVReorder.reorder_csv_safe`: catches every exception of
`reorder_csv` and returns `None` instead. -/
def reorderCsvSafe (cfg : CSVReorderConfig) (inputName outputDir : String)
    (rr : ReadResult) : Option OutputFile :=
  match reorderCsv cfg inputName outputDir rr with
  | .ok f => some f
  | .error _ => none

/-- All comparisons the sort could perform on this table succeed in
Python (no `TypeError`): on such tables the total order `keyLE` used by
the model coincides with Python's own comparison, so the model is
faithful exactly there. -/
def KeysComparable (cfg : CSVReorderConfig) (rows : List Row) : Prop :=
  ∀ r1 ∈ rows, ∀ r2 ∈ rows,
    cmpOk (pyCmpKey (createSortKey cfg r1) (createSortKey cfg r2)) = true

instance (cfg : CSVReorderConfig) (rows : List Row) :
    Decidable (KeysComparable cfg rows) := by
  unfold KeysComparable
  infer_instance

deriving instance DecidableEq for Except

/-- `true` iff the construction succeeded (no exception raised). -/
def exceptIsOk : Except ε α → Bool
  | .ok _ => true
  | .error _ => false

/-!
Helper lemmas shared by the claim theorems.
-/

theorem dateLT_irrefl (a : PyDate) : dateLT a a = false := by
  simp [dateLT]

theorem dateLT_asymm {a b : PyDate} (h : dateLT a b = true) :
    dateLT b a = false := by
  simp [dateLT] at *
  omega

theorem dateLT_trans {a b c : PyDate} (h1 : dateLT a b = true)
    (h2 : dateLT b c = true) : dateLT a c = true := by
  simp [dateLT] at *
  omega

theorem dateLT_conn {a b : PyDate} (h1 : dateLT a b = false)
    (h2 : dateLT b a = false) : a = b := by
  simp [dateLT] at *
  cases a
  cases b
  simp_all
  omega

theorem charListLT_irrefl (x : List Char) : charListLT x x = false := by
  induction x with
  | nil => rfl
  | cons a as ih => simp [charListLT, ih]

theorem charListLT_asymm {x y : List Char} (h : charListLT x y = true) :
    charListLT y x = false := by
  induction x generalizing y with
  | nil =>
    cases y with
    | nil => simp [charListLT] at h
    | cons b bs => simp [charListLT]
  | cons a as ih =>
    cases y with
    | nil => simp [charListLT] at h
    | cons b bs =>
      simp only [charListLT] at h ⊢
      by_cases h1 : a.toNat < b.toNat
      · rw [if_neg (Nat.lt_asymm h1), if_pos h1]
      · by_cases h2 : b.toNat < a.toNat
        · simp [h1, h2] at h
        · rw [if_neg h2, if_neg h1]
          rw [if_neg h1, if_neg h2] at h
          exact ih h

theorem charListLT_trans {x y z : List Char} (h1 : charListLT x y = true)
    (h2 : charListLT y z = true) : charListLT x z = true := by
  induction x generalizing y z with
  | nil =>
    cases z with
    | nil =>
      cases y with
      | nil => exact h1
      | cons b bs => simp [charListLT] at h2
    | cons c cs => simp [charListLT]
  | cons a as ih =>
    cases y with
    | nil => simp [charListLT] at h1
    | cons b bs =>
      cases z with
      | nil => simp [charListLT] at h2
      | cons c cs =>
        simp only [charListLT] at h1 h2 ⊢
        by_cases hab : a.toNat < b.toNat
        · by_cases hbc : b.toNat < c.toNat
          · rw [if_pos (Nat.lt_trans hab hbc)]
          · by_cases hcb : c.toNat < b.toNat
            · simp [hbc, hcb] at h2
            · have hbc' : b.toNat = c.toNat :=
                Nat.le_antisymm (Nat.le_of_not_lt hcb) (Nat.le_of_not_lt hbc)
              rw [if_pos (hbc' ▸ hab)]
        · by_cases hba : b.toNat < a.toNat
          · simp [hab, hba] at h1
          · have hab' : a.toNat = b.toNat :=
              Nat.le_antisymm (Nat.le_of_not_lt hba) (Nat.le_of_not_lt hab)
            by_cases hbc : b.toNat < c.toNat
            · rw [if_pos (by rw [hab']; exact hbc)]
            · by_cases hcb : c.toNat < b.toNat
              · simp [hbc, hcb] at h2
              · have hbc' : b.toNat = c.toNat :=
                  Nat.le_antisymm (Nat.le_of_not_lt hcb) (Nat.le_of_not_lt hbc)
                rw [if_neg (by rw [hab', hbc']; exact Nat.lt_irrefl _),
                    if_neg (by rw [hab', hbc']; exact Nat.lt_irrefl _)]
                rw [if_neg hab, if_neg hba] at h1
                rw [if_neg hbc, if_neg hcb] at h2
                exact ih h1 h2

theorem charListLT_conn : ∀ {x y : List Char}, charListLT x y = false →
    charListLT y x = false → x = y
  | [], [], _, _ => rfl
  | [], _ :: _, h1, _ => by simp [charListLT] at h1
  | _ :: _, [], _, h2 => by simp [charListLT] at h2
  | a :: as, b :: bs, h1, h2 => by
    simp only [charListLT] at h1 h2
    by_cases hab : a.toNat < b.toNat
    · simp [hab] at h1
    · by_cases hba : b.toNat < a.toNat
      · simp [hba, hab] at h2
      · rw [if_neg hab, if_neg hba] at h1
        rw [if_neg hba, if_neg hab] at h2
        have hchar : a = b := Char.ext (UInt32.toNat.inj
          (Nat.le_antisymm (Nat.le_of_not_lt hba) (Nat.le_of_not_lt hab)))
        rw [hchar, charListLT_conn h1 h2]

theorem keyPartLT_irrefl (a : KeyPart) : keyPartLT a a = false := by
  cases a with
  | intPart x => simp [keyPartLT]
  | datePart d => simp [keyPartLT, dateLT_irrefl]
  | strPart s => simp [keyPartLT, charListLT_irrefl]

theorem keyPartLT_asymm {a b : KeyPart} (h : keyPartLT a b = true) :
    keyPartLT b a = false := by
  cases a <;> cases b <;> simp_all [keyPartLT]
  · omega
  · exact dateLT_asymm h
  · exact charListLT_asymm h

theorem keyPartLT_trans {a b c : KeyPart} (h1 : keyPartLT a b = true)
    (h2 : keyPartLT b c = true) : keyPartLT a c = true := by
  cases a <;> cases b <;> cases c <;> simp_all [keyPartLT]
  · omega
  · exact dateLT_trans h1 h2
  · exact charListLT_trans h1 h2

theorem keyPartLT_conn {a b : KeyPart} (h1 : keyPartLT a b = false)
    (h2 : keyPartLT b a = false) : a = b := by
  cases a <;> cases b <;> simp_all [keyPartLT]
  · omega
  · exact dateLT_conn h1 h2
  · exact String.ext (charListLT_conn h1 h2)

theorem keyLE_refl (k : Key) : keyLE k k = true := by
  induction k with
  | nil => rfl
  | cons a as ih => simp [keyLE, keyPartLT_irrefl, ih]

theorem keyLE_total (k1 k2 : Key) : keyLE k1 k2 || keyLE k2 k1 := by
  induction k1 generalizing k2 with
  | nil => simp [keyLE]
  | cons a as ih =>
    cases k2 with
    | nil => simp [keyLE]
    | cons b bs =>
      cases hab : keyPartLT a b with
      | true => simp [keyLE, hab]
      | false =>
        cases hba : keyPartLT b a with
        | true => simp [keyLE, hab, hba]
        | false =>
          simp only [keyLE, hab, hba]
          simpa using ih bs

theorem keyLE_trans {k1 k2 k3 : Key} (h1 : keyLE k1 k2 = true)
    (h2 : keyLE k2 k3 = true) : keyLE k1 k3 = true := by
  induction k1 generalizing k2 k3 with
  | nil => simp [keyLE]
  | cons a as ih =>
    cases k2 with
    | nil => simp [keyLE] at h1
    | cons b bs =>
      cases k3 with
      | nil => simp [keyLE] at h2
      | cons c cs =>
        simp only [keyLE] at h1 h2 ⊢
        cases hab : keyPartLT a b with
        | true =>
          cases hbc : keyPartLT b c with
          | true => simp [keyPartLT_trans hab hbc]
          | false =>
            cases hcb : keyPartLT c b with
            | true => simp [hbc, hcb] at h2
            | false =>
              have hbc' : b = c := keyPartLT_conn hbc hcb
              subst hbc'
              simp [hab]
        | false =>
          cases hba : keyPartLT b a with
          | true => simp [hab, hba] at h1
          | false =>
            have hba' : a = b := keyPartLT_conn hab hba
            subst hba'
            simp only [hab, Bool.false_eq_true, if_false] at h1 h2 ⊢
            cases hac : keyPartLT a c with
            | true => simp [hac]
            | false =>
              simp only [hac, Bool.false_eq_true, if_false] at h2 ⊢
              cases hca : keyPartLT c a with
              | true => simp [hca] at h2
              | false =>
                simp only [hca, Bool.false_eq_true, if_false] at h2 ⊢
                exact ih h1 h2

theorem keyLE_antisymm {k1 k2 : Key} (h1 : keyLE k1 k2 = true)
    (h2 : keyLE k2 k1 = true) : k1 = k2 := by
  induction k1 generalizing k2 with
  | nil =>
    cases k2 with
    | nil => rfl
    | cons b bs => simp [keyLE] at h2
  | cons a as ih =>
    cases k2 with
    | nil => simp [keyLE] at h1
    | cons b bs =>
      simp only [keyLE] at h1 h2
      cases hab : keyPartLT a b with
      | true => simp [keyPartLT_asymm hab, hab] at h2
      | false =>
        cases hba : keyPartLT b a with
        | true => simp [hab, hba] at h1
        | false =>
          have hab' : a = b := keyPartLT_conn hab hba
          subst hab'
          simp only [hab, Bool.false_eq_true, if_false] at h1 h2
          rw [ih h1 h2]

theorem keyLE_intPart_le {x y : Nat} {k1 k2 : Key}
    (h : keyLE (KeyPart.intPart x :: k1) (KeyPart.intPart y :: k2) = true) : x ≤ y := by
  by_cases hxy : x < y
  · exact Nat.le_of_lt hxy
  · by_cases hyx : y < x
    · have h1 : keyPartLT (KeyPart.intPart x) (KeyPart.intPart y) = false := by
        simp [keyPartLT]
        omega
      have h2 : keyPartLT (KeyPart.intPart y) (KeyPart.intPart x) = true := by
        simp [keyPartLT]
        omega
      simp [keyLE, h1, h2] at h
    · omega

theorem ok_iff_aux {x y : KeyPart} {o : Ordering}
    (h : (if keyPartLT x y then Ordering.lt
          else if keyPartLT y x then Ordering.gt else Ordering.eq) = o) :
    (keyPartLT x y = true ↔ o = .lt) ∧ (keyPartLT y x = true ↔ o = .gt) := by
  subst h
  cases hxy : keyPartLT x y with
  | true => simp [keyPartLT_asymm hxy]
  | false =>
    cases hyx : keyPartLT y x with
    | true => simp
    | false => simp

/-- On every pair of atoms Python can compare without raising, the total
order `keyPartLT` used by the model agrees with Python's comparison. -/
theorem pyCmpKeyPart_ok_iff {a b : KeyPart} {o : Ordering}
    (h : pyCmpKeyPart a b = .ok o) :
    (keyPartLT a b = true ↔ o = .lt) ∧ (keyPartLT b a = true ↔ o = .gt) := by
  cases a <;> cases b <;>
    first
      | exact Except.noConfusion h
      | exact ok_iff_aux (Except.ok.inj h)

/-- Two sorted permutations of each other are equal, when the order is
antisymmetric on the elements actually present. -/
theorem sorted_perm_eq {r : α → α → Prop} :
    ∀ {l1 l2 : List α}, List.Perm l1 l2 → l1.Pairwise r → l2.Pairwise r →
      (∀ a ∈ l1, ∀ b ∈ l1, r a b → r b a → a = b) → l1 = l2 := by
  intro l1
  induction l1 with
  | nil =>
    intro l2 hp _ _ _
    exact hp.nil_eq
  | cons a t1 ih =>
    intro l2 hp hs1 hs2 hanti
    cases l2 with
    | nil => exact absurd hp.symm.nil_eq (by simp)
    | cons b t2 =>
      have hbmem : b ∈ a :: t1 := hp.symm.subset (List.mem_cons_self b t2)
      have hamem : a ∈ b :: t2 := hp.subset (List.mem_cons_self a t1)
      have hab : a = b := by
        rcases List.mem_cons.mp hbmem with hba | hbt
        · exact hba.symm
        · rcases List.mem_cons.mp hamem with hab' | hat
          · exact hab'
          · exact hanti a (List.mem_cons_self a t1) b hbmem
              (List.rel_of_pairwise_cons hs1 hbt)
              (List.rel_of_pairwise_cons hs2 hat)
      subst hab
      rw [ih hp.cons_inv hs1.of_cons hs2.of_cons
        (fun x hx y hy => hanti x (List.mem_cons_of_mem _ hx) y (List.mem_cons_of_mem _ hy))]

/-- Two elements sitting at positions `i < j` of a list form a sublist. -/
theorem pair_sublist_of_getElem {l : List α} {i j : Nat} {a b : α}
    (hij : i < j) (ha : l[i]? = some a) (hb : l[j]? = some b) :
    List.Sublist [a, b] l := by
  induction l generalizing i j with
  | nil => simp at ha
  | cons x xs ih =>
    cases i with
    | zero =>
      simp only [List.getElem?_cons_zero, Option.some.injEq] at ha
      subst ha
      cases j with
      | zero => omega
      | succ j' =>
        simp only [List.getElem?_cons_succ] at hb
        have hbmem : b ∈ xs := by
          rcases List.getElem?_eq_some.mp hb with ⟨hlt, heq⟩
          exact heq ▸ List.getElem_mem hlt
        exact (List.singleton_sublist.mpr hbmem).cons₂ x
    | succ i' =>
      cases j with
      | zero => omega
      | succ j' =>
        simp only [List.getElem?_cons_succ] at ha hb
        exact (ih (by omega) ha hb).cons x

theorem rowLE_total (cfg : CSVReorderConfig) (r1 r2 : Row) :
    rowLE cfg r1 r2 = true ∨ rowLE cfg r2 r1 = true := by
  have h := keyLE_total (createSortKey cfg r1) (createSortKey cfg r2)
  simpa [rowLE, Bool.or_eq_true] using h

theorem rowLE_trans (cfg : CSVReorderConfig) {a b c : Row}
    (h1 : rowLE cfg a b = true) (h2 : rowLE cfg b c = true) :
    rowLE cfg a c = true := by
  simp only [rowLE] at *
  exact keyLE_trans h1 h2

/-- Whenever the pipeline returns a file, the input passed all gates and
the file is exactly the one built from the sorted rows. -/
theorem reorderCsv_eq_ok {cfg : CSVReorderConfig} {inputName outputDir : String}
    {rr : ReadResult} {out : OutputFile}
    (h : reorderCsv cfg inputName outputDir rr = .ok out) :
    rr.fieldnames.isEmpty = false ∧ rr.rows.isEmpty = false ∧
    validateCsvColumns cfg rr.fieldnames = .ok () ∧
    out = { path := outputDir ++ "/" ++ cfg.outputPrefix ++ inputName
          , fieldnames := rr.fieldnames
          , delimiter := ","
          , encoding := cfg.encoding
          , rows := pySorted (rowLE cfg) cfg.reverse rr.rows } := by
  unfold reorderCsv at h
  split_ifs at h with h1 h2
  cases hval : validateCsvColumns cfg rr.fieldnames with
  | error e => rw [hval] at h; exact Except.noConfusion h
  | ok u =>
    cases u
    rw [hval] at h
    refine ⟨by simpa using h1, by simpa using h2, rfl, ?_⟩
    exact (Except.ok.inj h).symm

/-!
Claim theorems.
-/

/-- C1: refuted by the code (code bug).  With a date column containing
one parseable and one unparseable value, the first row's key atom is a
`datetime` and the second's a `str`; the comparison between the two
composite keys — which sorting two rows must perform — raises
`TypeError` (modelled `.error ()`), so the run aborts inside `sorted`
(wrapped into `CSVReorderError`) instead of degrading that row to
string comparison; the fallback only works when no comparison mixes a
parsed and an unparsed value. -/
theorem c1_mixed_date_column_comparison_raises :
    createSortKey { sort_columns := [{ name := "year", is_date := true }] }
      [("year", "2020-01-01")] = [KeyPart.datePart ⟨2020, 1, 1⟩] ∧
    createSortKey { sort_columns := [{ name := "year", is_date := true }] }
      [("year", "not-a-date")] = [KeyPart.strPart "not-a-date"] ∧
    pyCmpKey
      (createSortKey { sort_columns := [{ name := "year", is_date := true }] }
        [("year", "not-a-date")])
      (createSortKey { sort_columns := [{ name := "year", is_date := true }] }
        [("year", "2020-01-01")]) = .error () ∧
    ¬ KeysComparable { sort_columns := [{ name := "year", is_date := true }] }
      [[("year", "2020-01-01")], [("year", "not-a-date")]] := by
  refine ⟨by decide, by decide, by decide, by decide⟩

/-- C2 counterexample: two rows with equal composite keys keep their
original relative order under `reverse=true` (CPython's sort remains
stable in reverse mode), so the descending output is not the exact
reverse of the ascending output: the claimed equality fails on this
table. -/
theorem c2_counterexample :
    Except.map OutputFile.rows
      (reorderCsv { sort_columns := [{ name := "t" }], reverse := true } "f.csv" "o"
        { fieldnames := ["t", "id"]
        , rows := [[("t", "x"), ("id", "1")], [("t", "x"), ("id", "2")]]
        , delimiter := "," }) ≠
    Except.map (fun f => f.rows.reverse)
      (reorderCsv { sort_columns := [{ name := "t" }], reverse := false } "f.csv" "o"
        { fieldnames := ["t", "id"]
        , rows := [[("t", "x"), ("id", "1")], [("t", "x"), ("id", "2")]]
        , delimiter := "," }) := by
  decide

/-- C2 (amended): `reverse=true` yields the stable descending order —
tie groups keep their original relative order — and coincides with the
exact reverse of the `reverse=false` order whenever all composite keys
are pairwise distinct. -/
theorem c2_reverse_exact_reverse_on_distinct_keys (cfg : CSVReorderConfig)
    (inputName outputDir : String) (rr : ReadResult) (outAsc outDesc : OutputFile)
    (hcmp : KeysComparable cfg rr.rows)
    (hdist : rr.rows.Pairwise fun r1 r2 => createSortKey cfg r1 ≠ createSortKey cfg r2)
    (hrev : cfg.reverse = false)
    (hasc : reorderCsv cfg inputName outputDir rr = .ok outAsc)
    (hdesc : reorderCsv { cfg with reverse := true } inputName outputDir rr = .ok outDesc) :
    outDesc.rows = outAsc.rows.reverse := by
  obtain ⟨-, -, -, h4a⟩ := reorderCsv_eq_ok hasc
  obtain ⟨-, -, -, h4d⟩ := reorderCsv_eq_ok hdesc
  rw [h4a, h4d]
  show pySorted (rowLE { cfg with reverse := true }) true rr.rows
      = (pySorted (rowLE cfg) cfg.reverse rr.rows).reverse
  have hle : rowLE { cfg with reverse := true } = rowLE cfg := rfl
  rw [hle, hrev]
  show (List.insertionSort (fun a b => rowLE cfg a b = true) rr.rows.reverse).reverse
      = (List.insertionSort (fun a b => rowLE cfg a b = true) rr.rows).reverse
  congr 1
  haveI : IsTotal Row (fun a b => rowLE cfg a b = true) := ⟨rowLE_total cfg⟩
  haveI : IsTrans Row (fun a b => rowLE cfg a b = true) :=
    ⟨fun _ _ _ h1 h2 => rowLE_trans cfg h1 h2⟩
  refine sorted_perm_eq ?_ (List.sorted_insertionSort _ _)
    (List.sorted_insertionSort _ _) ?_
  · exact ((List.perm_insertionSort _ _).trans (List.reverse_perm _)).trans
      (List.perm_insertionSort _ _).symm
  · intro a ha b hb hab hba
    have ha' : a ∈ rr.rows := List.mem_reverse.mp ((List.mem_insertionSort _).mp ha)
    have hb' : b ∈ rr.rows := List.mem_reverse.mp ((List.mem_insertionSort _).mp hb)
    by_cases heq : a = b
    · exact heq
    · simp only [rowLE] at hab hba
      exact absurd (keyLE_antisymm hab hba)
        (hdist.forall (by intro x y hxy h; exact hxy h.symm) ha' hb' heq)

theorem c2_witness :
    OutputFile.rows
      { path := "o/sorted_f.csv", fieldnames := ["t"], delimiter := ","
      , encoding := "utf-8", rows := [[("t", "b")], [("t", "a")]] } =
    (OutputFile.rows
      { path := "o/sorted_f.csv", fieldnames := ["t"], delimiter := ","
      , encoding := "utf-8", rows := [[("t", "a")], [("t", "b")]] }).reverse :=
  c2_reverse_exact_reverse_on_distinct_keys { sort_columns := [{ name := "t" }] }
    "f.csv" "o" { fieldnames := ["t"], rows := [[("t", "b")], [("t", "a")]], delimiter := "," }
    _ _ (by decide) (by decide) rfl (by decide) (by decide)

/-- C3: a successful reorder permutes the data rows and nothing else —
the multiset of output rows equals the multiset of input rows, no row
added, dropped or mutated. -/
theorem c3_rows_preserved (cfg : CSVReorderConfig) (inputName outputDir : String)
    (rr : ReadResult) (out : OutputFile)
    (hcmp : KeysComparable cfg rr.rows)
    (hout : reorderCsv cfg inputName outputDir rr = .ok out) :
    List.Perm out.rows rr.rows ∧
    Multiset.ofList out.rows = Multiset.ofList rr.rows := by
  obtain ⟨-, -, -, h4⟩ := reorderCsv_eq_ok hout
  have hperm : List.Perm out.rows rr.rows := by
    rw [h4]
    show List.Perm (pySorted (rowLE cfg) cfg.reverse rr.rows) rr.rows
    unfold pySorted
    split_ifs
    · exact (List.reverse_perm _).trans
        ((List.perm_insertionSort _ _).trans (List.reverse_perm _))
    · exact List.perm_insertionSort _ _
  exact ⟨hperm, Quot.sound hperm⟩

theorem c3_witness :
    List.Perm (OutputFile.rows
      { path := "o/sorted_f.csv", fieldnames := ["a"], delimiter := ","
      , encoding := "utf-8", rows := [[("a", "1")], [("a", "2")]] })
      [[("a", "2")], [("a", "1")]] ∧
    Multiset.ofList (OutputFile.rows
      { path := "o/sorted_f.csv", fieldnames := ["a"], delimiter := ","
      , encoding := "utf-8", rows := [[("a", "1")], [("a", "2")]] }) =
      Multiset.ofList [[("a", "2")], [("a", "1")]] :=
  c3_rows_preserved { sort_columns := [{ name := "a" }] } "f.csv" "o"
    { fieldnames := ["a"], rows := [[("a", "2")], [("a", "1")]], delimiter := "," }
    _ (by decide) (by decide)

/-- C4: with `reverse=false` the sort is stable: the output is the
projection of the stable sort of the index-tagged rows, and any two
rows whose composite keys are fully equal appear in the output with
their original indices still in increasing order. -/
theorem c4_sort_is_stable (cfg : CSVReorderConfig) (inputName outputDir : String)
    (rr : ReadResult) (out : OutputFile)
    (hcmp : KeysComparable cfg rr.rows) (hrev : cfg.reverse = false)
    (hout : reorderCsv cfg inputName outputDir rr = .ok out)
    (i j : Nat) (ri rj : Row) (hij : i < j)
    (hi : rr.rows[i]? = some ri) (hj : rr.rows[j]? = some rj)
    (hkey : createSortKey cfg ri = createSortKey cfg rj) :
    out.rows = (List.insertionSort (fun a b => rowLE cfg a.2 b.2 = true) rr.rows.enum).map
      Prod.snd ∧
    List.Sublist [(i, ri), (j, rj)]
      (List.insertionSort (fun a b => rowLE cfg a.2 b.2 = true) rr.rows.enum) := by
  constructor
  · obtain ⟨-, -, -, h4⟩ := reorderCsv_eq_ok hout
    rw [h4]
    show pySorted (rowLE cfg) cfg.reverse rr.rows = _
    rw [hrev]
    show List.insertionSort (fun a b => rowLE cfg a b = true) rr.rows = _
    rw [List.map_insertionSort (fun a b => rowLE cfg a.2 b.2 = true)
        (fun a b => rowLE cfg a b = true) Prod.snd rr.rows.enum
        (fun a _ b _ => Iff.rfl)]
    rw [show rr.rows.enum = List.enumFrom 0 rr.rows from rfl, List.enumFrom_map_snd]
  · refine List.pair_sublist_insertionSort ?_ ?_
    · show rowLE cfg ri rj = true
      simp only [rowLE]
      rw [hkey]
      exact keyLE_refl _
    · exact pair_sublist_of_getElem hij
        (by rw [List.getElem?_enum, hi]; rfl)
        (by rw [List.getElem?_enum, hj]; rfl)

theorem c4_witness :
    OutputFile.rows
      { path := "o/sorted_f.csv", fieldnames := ["t", "id"], delimiter := ","
      , encoding := "utf-8"
      , rows := [[("t", "x"), ("id", "1")], [("t", "x"), ("id", "2")]] } =
      (List.insertionSort
        (fun a b => rowLE { sort_columns := [{ name := "t" }] } a.2 b.2 = true)
        ([[("t", "x"), ("id", "1")], [("t", "x"), ("id", "2")]] : List Row).enum).map
        Prod.snd ∧
    List.Sublist [(0, [("t", "x"), ("id", "1")]), (1, [("t", "x"), ("id", "2")])]
      (List.insertionSort
        (fun a b => rowLE { sort_columns := [{ name := "t" }] } a.2 b.2 = true)
        ([[("t", "x"), ("id", "1")], [("t", "x"), ("id", "2")]] : List Row).enum) :=
  c4_sort_is_stable { sort_columns := [{ name := "t" }] } "f.csv" "o"
    { fieldnames := ["t", "id"]
    , rows := [[("t", "x"), ("id", "1")], [("t", "x"), ("id", "2")]]
    , delimiter := "," }
    _ (by decide) rfl (by decide) 0 1 _ _ (by decide) rfl rfl rfl

/-- C5: with language sorting enabled the first atom of every composite
key is the integer rank of the row's stripped language value —
its index in the priority order, or the order's length when absent —
and, sorting ascending with order `["EN", "CN"]`, the ranks are
monotone along the output: every rank-0 (`"EN"`) row precedes every
rank-1 (`"CN"`) row, which precedes every rank-2 (other/unknown) row. -/
theorem c5_language_rank_ordering (cfg : CSVReorderConfig)
    (inputName outputDir : String) (rr : ReadResult) (out : OutputFile)
    (hcmp : KeysComparable cfg rr.rows)
    (huls : cfg.use_language_sorting = true)
    (horder : cfg.language_order = ["EN", "CN"])
    (hrev : cfg.reverse = false)
    (hout : reorderCsv cfg inputName outputDir rr = .ok out) :
    (∀ row : Row, (createSortKey cfg row).head? =
      some (KeyPart.intPart (langIndex cfg row))) ∧
    (∀ row : Row,
      (langIndex cfg row = 0 ↔ pyStrip (rowGet row cfg.language_column) = "EN") ∧
      (langIndex cfg row = 1 ↔ pyStrip (rowGet row cfg.language_column) = "CN") ∧
      (langIndex cfg row = 2 ↔ (pyStrip (rowGet row cfg.language_column) ≠ "EN" ∧
        pyStrip (rowGet row cfg.language_column) ≠ "CN"))) ∧
    (∀ (i j : Nat) (hi : i < out.rows.length) (hj : j < out.rows.length), i < j →
      langIndex cfg (out.rows[i]) ≤ langIndex cfg (out.rows[j])) := by
  refine ⟨?_, ?_, ?_⟩
  · intro row
    simp [createSortKey, huls]
  · intro row
    by_cases h1 : pyStrip (rowGet row cfg.language_column) = "EN"
    · simp [langIndex, horder, listIndex, h1]
    · by_cases h2 : pyStrip (rowGet row cfg.language_column) = "CN"
      · simp [langIndex, horder, listIndex, h1, h2]
      · simp [langIndex, horder, listIndex, h1, h2, Ne.symm h1, Ne.symm h2]
  · intro i j hi hj hij
    have hsorted : out.rows.Pairwise (fun a b => rowLE cfg a b = true) := by
      obtain ⟨-, -, -, h4⟩ := reorderCsv_eq_ok hout
      rw [h4]
      show (pySorted (rowLE cfg) cfg.reverse rr.rows).Pairwise _
      rw [hrev]
      show (List.insertionSort (fun a b => rowLE cfg a b = true) rr.rows).Pairwise _
      haveI : IsTotal Row (fun a b => rowLE cfg a b = true) := ⟨rowLE_total cfg⟩
      haveI : IsTrans Row (fun a b => rowLE cfg a b = true) :=
        ⟨fun _ _ _ h1 h2 => rowLE_trans cfg h1 h2⟩
      exact List.sorted_insertionSort _ _
    have hle := List.pairwise_iff_getElem.mp hsorted i j hi hj hij
    simp only [rowLE] at hle
    have hki : createSortKey cfg (out.rows[i]) =
        KeyPart.intPart (langIndex cfg (out.rows[i])) ::
          (cfg.sort_columns.map fun sc =>
            let value := rowGet (out.rows[i]) sc.name
            if sc.is_date && !(value == "") then
              match parse_date value with
              | .date d => .datePart d
              | .str s => .strPart s
            else .strPart (pyLower value)) := by
      simp [createSortKey, huls]
    have hkj : createSortKey cfg (out.rows[j]) =
        KeyPart.intPart (langIndex cfg (out.rows[j])) ::
          (cfg.sort_columns.map fun sc =>
            let value := rowGet (out.rows[j]) sc.name
            if sc.is_date && !(value == "") then
              match parse_date value with
              | .date d => .datePart d
              | .str s => .strPart s
            else .strPart (pyLower value)) := by
      simp [createSortKey, huls]
    rw [hki, hkj] at hle
    exact keyLE_intPart_le hle

theorem c5_witness :
    langIndex { sort_columns := [{ name := "t" }], use_language_sorting := true }
      ((OutputFile.rows
        { path := "o/sorted_f.csv", fieldnames := ["language", "t"], delimiter := ","
        , encoding := "utf-8"
        , rows := [[("language", "EN"), ("t", "2")], [("language", "CN"), ("t", "1")]]
        }).get ⟨0, by decide⟩) ≤
    langIndex { sort_columns := [{ name := "t" }], use_language_sorting := true }
      ((OutputFile.rows
        { path := "o/sorted_f.csv", fieldnames := ["language", "t"], delimiter := ","
        , encoding := "utf-8"
        , rows := [[("language", "EN"), ("t", "2")], [("language", "CN"), ("t", "1")]]
        }).get ⟨1, by decide⟩) :=
  (c5_language_rank_ordering
    { sort_columns := [{ name := "t" }], use_language_sorting := true } "f.csv" "o"
    { fieldnames := ["language", "t"]
    , rows := [[("language", "CN"), ("t", "1")], [("language", "EN"), ("t", "2")]]
    , delimiter := "," }
    _ (by decide) rfl rfl rfl (by decide)).2.2 0 1 (by decide) (by decide) (by decide)

/-- C6: a sort specification referencing columns absent from the header
fails validation with an error carrying exactly the set of all missing
sort-column names (found in one pass), and the whole reorder then fails,
so no sorting result or output file is ever produced. -/
theorem c6_missing_columns_validation (cfg : CSVReorderConfig)
    (fieldnames : List String) (hne : fieldnames ≠ [])
    (hmiss : sortColumnNames cfg \ fieldnames.toFinset ≠ ∅) :
    validateCsvColumns cfg fieldnames =
      .error (.missingSortColumns (sortColumnNames cfg \ fieldnames.toFinset)) ∧
    (∀ n : String, n ∈ sortColumnNames cfg \ fieldnames.toFinset ↔
      ((∃ sc ∈ cfg.sort_columns, sc.name = n) ∧ n ∉ fieldnames)) ∧
    (∀ (inputName outputDir : String) (rr : ReadResult) (out : OutputFile),
      rr.fieldnames = fieldnames →
        reorderCsv cfg inputName outputDir rr ≠ .ok out) := by
  have hie : fieldnames.isEmpty = false := by
    cases fieldnames with
    | nil => exact absurd rfl hne
    | cons x xs => rfl
  have hval : validateCsvColumns cfg fieldnames =
      .error (.missingSortColumns (sortColumnNames cfg \ fieldnames.toFinset)) := by
    unfold validateCsvColumns
    rw [hie]
    simp only [Bool.false_eq_true, if_false]
    rw [if_neg hmiss]
  refine ⟨hval, ?_, ?_⟩
  · intro n
    simp [sortColumnNames, Finset.mem_sdiff, List.mem_toFinset, List.mem_map]
  · intro inputName outputDir rr out hfields hok
    obtain ⟨-, -, h3, -⟩ := reorderCsv_eq_ok hok
    rw [hfields, hval] at h3
    exact Except.noConfusion h3

theorem c6_witness :
    validateCsvColumns { sort_columns := [{ name := "b" }, { name := "c" }] } ["a", "c"] =
      .error (.missingSortColumns
        (sortColumnNames { sort_columns := [{ name := "b" }, { name := "c" }] } \
          (["a", "c"] : List String).toFinset)) :=
  (c6_missing_columns_validation _ _ (by decide) (by decide)).1

/-- C7: a file with a header row but zero data rows fails with the
no-data-rows error; the pipeline stops before validation, sorting and
writing, so no output file is produced. -/
theorem c7_no_data_rows (cfg : CSVReorderConfig) (inputName outputDir : String)
    (rr : ReadResult) (hheader : rr.fieldnames ≠ []) (hrows : rr.rows = []) :
    reorderCsv cfg inputName outputDir rr = .error .noDataRows := by
  have hie : rr.fieldnames.isEmpty = false := by
    cases hf : rr.fieldnames with
    | nil => exact absurd hf hheader
    | cons x xs => simp [hf]
  unfold reorderCsv
  rw [hie, hrows]
  simp

theorem c7_witness :
    reorderCsv { sort_columns := [{ name := "a" }] } "in.csv" "out"
      { fieldnames := ["a"], rows := [], delimiter := "," } = .error .noDataRows :=
  c7_no_data_rows _ "in.csv" "out" _ (by decide) rfl

/-- C8 counterexample: on an input whose detected delimiter is `";"`,
the run succeeds but the output file is serialized with delimiter `","`
(the `csv.DictWriter` default), not the detected one, refuting the
same-delimiter part of the claim. -/
theorem c8_counterexample :
    Except.map OutputFile.delimiter
      (reorderCsv { sort_columns := [{ name := "a" }] } "in.csv" "out"
        { fieldnames := ["a"], rows := [[("a", "x")]], delimiter := ";" }) = .ok "," ∧
    ("," : String) ≠ ";" := by
  constructor
  · rfl
  · decide

/-- C8 (amended): a successful run produces exactly one output file,
named by prepending the output prefix to the input file name, in the
output directory, with the input's column set and order and the
configured (same-as-read) text encoding; its field delimiter is always
the comma, which matches the input's delimiter only when the input was
comma-delimited. -/
theorem c8_output_file_shape (cfg : CSVReorderConfig)
    (inputName outputDir : String) (rr : ReadResult) (out : OutputFile)
    (hout : reorderCsv cfg inputName outputDir rr = .ok out) :
    out.path = outputDir ++ "/" ++ cfg.outputPrefix ++ inputName ∧
    out.fieldnames = rr.fieldnames ∧
    out.encoding = cfg.encoding ∧
    out.delimiter = "," := by
  obtain ⟨-, -, -, h4⟩ := reorderCsv_eq_ok hout
  rw [h4]
  exact ⟨rfl, rfl, rfl, rfl⟩

theorem c8_witness :
    OutputFile.path
      { path := "out/sorted_in.csv", fieldnames := ["a"], delimiter := ","
      , encoding := "utf-8", rows := [[("a", "x")]] } = "out" ++ "/" ++ "sorted_" ++ "in.csv" ∧
    OutputFile.fieldnames
      { path := "out/sorted_in.csv", fieldnames := ["a"], delimiter := ","
      , encoding := "utf-8", rows := [[("a", "x")]] } = ["a"] ∧
    OutputFile.encoding
      { path := "out/sorted_in.csv", fieldnames := ["a"], delimiter := ","
      , encoding := "utf-8", rows := [[("a", "x")]] } = "utf-8" ∧
    OutputFile.delimiter
      { path := "out/sorted_in.csv", fieldnames := ["a"], delimiter := ","
      , encoding := "utf-8", rows := [[("a", "x")]] } = "," :=
  c8_output_file_shape { sort_columns := [{ name := "a" }] } "in.csv" "out"
    { fieldnames := ["a"], rows := [[("a", "x")]], delimiter := ";" } _ (by decide)

/-- C9: every configuration defect — empty sort-column list, blank
column name, language sorting with a blank language column or an empty
language order, unsupported encoding — is caught by the corresponding
construction function, which takes only specification data (no file
contents), so the error is raised before any file I/O; conversely the
constructors succeed exactly when no defect is present. -/
theorem c9_config_errors_eager (name : String) (isDate : Bool)
    (cols : List SortColumn) (rev uls : Bool) (langCol : String)
    (langOrder : List String) (outPre enc : String)
    (encodingSupported : String → Bool) (cfg : CSVReorderConfig) :
    (exceptIsOk (mkSortColumn name isDate) = true ↔ pyStrip name ≠ "") ∧
    (exceptIsOk (mkCSVReorderConfig cols rev uls langCol langOrder outPre enc) = true ↔
      (cols ≠ [] ∧ (uls = true → pyStrip langCol ≠ "") ∧ (uls = true → langOrder ≠ []))) ∧
    (exceptIsOk (mkCSVReorder encodingSupported cfg) = true ↔
      encodingSupported cfg.encoding = true) := by
  refine ⟨?_, ?_, ?_⟩
  · unfold mkSortColumn
    split_ifs with h <;> simp [exceptIsOk, h]
  · unfold mkCSVReorderConfig
    split_ifs with h1 h2 h3 <;>
      simp_all [exceptIsOk, List.isEmpty_iff, Bool.and_eq_true]
  · unfold mkCSVReorder
    split_ifs with h <;> simp [exceptIsOk, h]

/-- C10: the safe entry point never propagates a failure: it returns
exactly the output of a successful run, and `none` whenever the
underlying run fails for any reason. -/
theorem c10_safe_never_throws (cfg : CSVReorderConfig)
    (inputName outputDir : String) (rr : ReadResult) :
    (∃ out, reorderCsv cfg inputName outputDir rr = .ok out ∧
      reorderCsvSafe cfg inputName outputDir rr = some out) ∨
    ((∃ e, reorderCsv cfg inputName outputDir rr = .error e) ∧
      reorderCsvSafe cfg inputName outputDir rr = none) := by
  unfold reorderCsvSafe
  cases h : reorderCsv cfg inputName outputDir rr with
  | ok f => exact .inl ⟨f, rfl, rfl⟩
  | error e => exact .inr ⟨⟨e, rfl⟩, rfl⟩
